import Mathlib

/-!
Verification development for the agentic-rules-framework decision engine.

The repository is a policy-decision hook: given a proposed tool action
(a shell command or a file edit) and a YAML ruleset, it decides whether
the action is denied, requires confirmation, is allowed, or gets no
decision.  The decision logic lives in three near-duplicate Python
modules: `tool_check.py` (legacy), `agent_rules.py`, and
`check_agent_rules.py` (multi-format aware).  This file gives a shallow
embedding of that logic and proves the specified properties about it.

Modelling conventions:
* Python `re.search` / `re.fullmatch` are modelled by a regular-expression
  engine over the dialect actually used by the rules (literal characters,
  `.` and `*`), via Brzozowski derivatives.
* `pathlib.Path` values are modelled as an absolute-flag plus a list of
  components (`.`/empty components dropped at construction, as pathlib
  does); `Path.resolve()` is modelled for a symlink-free filesystem,
  resolving a relative path against an explicit `cwd` argument and
  normalising `..` components.
* Python dicts with optional `reason`/`context` keys become structures of
  `Option String`; a missing key is `none`.
* The JSON emitted by `output_decision` is modelled by a small JSON value
  type, so that the shape of the output object can be stated.
-/

/-- Minimal regular-expression syntax covering the dialect used by the
rules files: literal characters, the `.` wildcard, and postfix `*`. -/
inductive Regex where
  | eps : Regex
  | fail : Regex
  | chr : Char → Regex
  | anyChar : Regex
  | seq : Regex → Regex → Regex
  | alt : Regex → Regex → Regex
  | star : Regex → Regex
deriving DecidableEq, Repr

/-- Whether a regular expression accepts the empty string. -/
def nullable : Regex → Bool
  | .eps => true
  | .fail => false
  | .chr _ => false
  | .anyChar => false
  | .seq a b => nullable a && nullable b
  | .alt a b => nullable a || nullable b
  | .star _ => true

/-- Brzozowski derivative of a regular expression by one character. -/
def rderiv : Regex → Char → Regex
  | .eps, _ => .fail
  | .fail, _ => .fail
  | .chr c, d => if c = d then .eps else .fail
  | .anyChar, _ => .eps
  | .seq a b, d => if nullable a then .alt (.seq (rderiv a d) b) (rderiv b d) else .seq (rderiv a d) b
  | .alt a b, d => .alt (rderiv a d) (rderiv b d)
  | .star a, d => .seq (rderiv a d) (.star a)

/-- Whether `r` matches the whole character list. -/
def matchFull : Regex → List Char → Bool
  | r, [] => nullable r
  | r, c :: cs => matchFull (rderiv r c) cs

/-- Whether `r` matches some (possibly empty) initial segment of the list. -/
def matchPref : Regex → List Char → Bool
  | r, [] => nullable r
  | r, c :: cs => nullable r || matchPref (rderiv r c) cs

/-- Whether `r` matches somewhere inside the list: a match may start at
any position, mirroring Python `re.search`. -/
def searchFrom (r : Regex) : List Char → Bool
  | [] => nullable r
  | c :: cs => matchPref r (c :: cs) || searchFrom r cs

/-- Translation of a pattern string into `Regex`: `.` becomes the
wildcard, `*` applies to the previous atom, everything else is a literal
character.  The accumulator holds the atoms read so far, in reverse. -/
def parseAtoms : List Char → List Regex → List Regex
  | [], acc => acc
  | c :: cs, acc =>
    if c = '*' then
      match acc with
      | a :: rest => parseAtoms cs (Regex.star a :: rest)
      | [] => parseAtoms cs acc
    else if c = '.' then parseAtoms cs (Regex.anyChar :: acc)
    else parseAtoms cs (Regex.chr c :: acc)

/-- Pattern string to regular expression. -/
def parseRegex (p : String) : Regex :=
  (parseAtoms p.data []).reverse.foldr Regex.seq Regex.eps

/-- Model of Python `re.fullmatch(pat, s)` (as a Bool: did it match). -/
def reFullmatch (pat s : String) : Bool :=
  matchFull (parseRegex pat) s.data

/-- Model of Python `re.search(pat, s)` (as a Bool: did it match). -/
def reSearch (pat s : String) : Bool :=
  searchFrom (parseRegex pat) s.data

/-- Truthiness of an optional string, as Python `if x:` sees it:
`None` and the empty string are falsy. -/
def truthy : Option String → Bool
  | some s => s ≠ ""
  | none => false

/-- One command rule: a regex pattern plus optional reason/context. -/
structure CmdRule where
  pattern : String
  reason : Option String := none
  context : Option String := none
deriving DecidableEq, Repr

/-- One forbidden-edit rule: a filesystem path plus optional
reason/context. -/
structure PathRule where
  path : String
  reason : Option String := none
  context : Option String := none
deriving DecidableEq, Repr

/-- The `details` dict returned alongside a decision: optional reason and
context, each omitted (`none`) when the matching rule lacks the field. -/
structure Details where
  reason : Option String := none
  context : Option String := none
deriving DecidableEq, Repr

/-- Details taken from a command rule, as built by the Python loops:
`details = {}` then copy `reason`/`context` when present. -/
def CmdRule.details (r : CmdRule) : Details := ⟨r.reason, r.context⟩

/-- Details taken from a path rule. -/
def PathRule.details (r : PathRule) : Details := ⟨r.reason, r.context⟩

/-- A loaded ruleset: the four lists read from the rules YAML file, each
defaulting to the empty list (`rules.get(key, [])`). -/
structure Rules where
  deny_commands : List CmdRule := []
  allow_commands : List CmdRule := []
  confirm_commands : List CmdRule := []
  deny_edits : List PathRule := []
deriving DecidableEq, Repr

/-- The decision returned by `check_command`: the strings
`"deny"`, `"ask"`, `"allow"` (absence of a decision is `Option.none`). -/
inductive Status where
  | deny : Status
  | ask : Status
  | allow : Status
deriving DecidableEq, Repr

/-- Model of a `pathlib.PurePosixPath`: an absolute-path flag and the
component list (anchor excluded).  Like pathlib, empty and `.`
components are dropped at construction and `..` is kept. -/
structure PPath where
  absolute : Bool
  parts : List String
deriving DecidableEq, Repr

/-- Flush the (reversed) characters of the component being read onto the
accumulated component list, skipping empty components. -/
def flushComp (cur : List Char) (acc : List String) : List String :=
  if cur.isEmpty then acc else String.mk cur.reverse :: acc

/-- Split a character list on `/` into components, dropping empties. -/
def splitComps : List Char → List Char → List String → List String
  | [], cur, acc => (flushComp cur acc).reverse
  | c :: cs, cur, acc =>
    if c = '/' then splitComps cs [] (flushComp cur acc)
    else splitComps cs (c :: cur) acc

/-- Whether a string starts with the character `/` (the test
`s.startswith("/")` behind `PurePath.is_absolute` for POSIX paths). -/
def startsSlash (s : String) : Bool :=
  match s.data with
  | c :: _ => c = '/'
  | [] => false

/-- Model of `pathlib.Path(s)` construction: absolute when the string
starts with `/`; components with `.` entries dropped. -/
def pathOfString (s : String) : PPath :=
  ⟨startsSlash s, (splitComps s.data [] []).filter (fun c => c ≠ ".")⟩

/-- Model of the pathlib `/` join operator: if the right operand is
absolute it wins, otherwise components are appended. -/
def pathJoin (p q : PPath) : PPath :=
  if q.absolute then q else ⟨p.absolute, p.parts ++ q.parts⟩

/-- One step of `..` normalisation: `..` pops the last component (a `..`
above the root is dropped, as `Path.resolve` does). -/
def normStep (acc : List String) (c : String) : List String :=
  if c = ".." then acc.dropLast else if c = "." then acc else acc ++ [c]

/-- Normalise away `.` and `..` components. -/
def normParts (l : List String) : List String := l.foldl normStep []

/-- Model of `Path.resolve()` on a symlink-free filesystem: make the path
absolute against `cwd` (the process working directory) when it is
relative, then normalise `..` components. -/
def resolvePath (p cwd : PPath) : PPath :=
  if p.absolute then ⟨true, normParts p.parts⟩
  else ⟨(pathJoin cwd p).absolute, normParts (pathJoin cwd p).parts⟩

/-- Decidable list-leading test: does the first list occur as an initial
segment of the second. -/
def listLead : List String → List String → Bool
  | [], _ => true
  | _ :: _, [] => false
  | a :: as, b :: bs => if a = b then listLead as bs else false

/-- Model of `p.is_relative_to(q)`: same anchor and `q`'s components
lead `p`'s components. -/
def isRelativeTo (p q : PPath) : Bool :=
  (p.absolute == q.absolute) && listLead q.parts p.parts

/-- Model of `Path.name`: the final component, or `""` when there is
none. -/
def pathName (p : PPath) : String :=
  match p.parts.getLast? with
  | some n => n
  | none => ""

/-- Model of `len(Path(...).parts)`: pathlib counts the anchor `/` of an
absolute path as a part. -/
def pyPartsLen (p : PPath) : Nat :=
  (if p.absolute then 1 else 0) + p.parts.length

/-- Model of `str(Path(...))`: the anchor followed by the components
joined with `/`; the empty relative path renders as `.`. -/
def strOfPath (p : PPath) : String :=
  match p.parts with
  | [] => if p.absolute then "/" else "."
  | _ :: _ => (if p.absolute then "/" else "") ++ String.intercalate "/" p.parts

/-- Decidable suffix test on character lists. -/
def listTail? (a b : List Char) : Bool :=
  a.reverse.isPrefixOf b.reverse

/-- Model of Python `str.endswith`. -/
def strEndsWith (s post : String) : Bool :=
  listTail? post.data s.data

/-- Minimal JSON value type, enough to describe the objects printed by
`output_decision`. -/
inductive JVal where
  | str : String → JVal
  | obj : List (String × JVal) → JVal

/-- The two supported host tool formats, the constants `VSCODE_COPILOT`
and `COPILOT_CLI` of `convert.py`. -/
inductive ToolFormat where
  | vscodeCopilot : ToolFormat
  | copilotCli : ToolFormat
deriving DecidableEq, Repr

namespace ToolCheck

/-- Loop of `tool_check.check_command` over `deny_commands`: first rule
whose pattern `re.search`-matches the command wins. -/
def scanSearch : List CmdRule → String → Option Details
  | [], _ => none
  | r :: rest, cmd =>
    if reSearch r.pattern cmd then some r.details else scanSearch rest cmd

/-- Loops of `tool_check.check_command` over `confirm_commands` and
`allow_commands`: first rule whose pattern `re.fullmatch`-matches wins. -/
def scanFull : List CmdRule → String → Option Details
  | [], _ => none
  | r :: rest, cmd =>
    if reFullmatch r.pattern cmd then some r.details else scanFull rest cmd

/-- Embedding of `tool_check.check_command`: deny (search) then confirm
(fullmatch) then allow (fullmatch); empty command gets no decision. -/
def check_command (command : String) (rules : Rules) : Option Status × Details :=
  if command = "" then (none, ⟨none, none⟩)
  else
    match scanSearch rules.deny_commands command with
    | some d => (some Status.deny, d)
    | none =>
      match scanFull rules.confirm_commands command with
      | some d => (some Status.ask, d)
      | none =>
        match scanFull rules.allow_commands command with
        | some d => (some Status.allow, d)
        | none => (none, ⟨none, none⟩)

/-- Loop of `tool_check.check_forbidden_path`: a rule matches when the
candidate's final component equals the rule path's final component and
the rule path is a single component or the candidate string ends with
the rule path string.  No resolution is performed. -/
def forbiddenLoop (path : PPath) : List PathRule → Bool × Details
  | [] => (false, ⟨none, none⟩)
  | f :: rest =>
    let forbidden_path := pathOfString f.path
    if pathName path == pathName forbidden_path
        && (pyPartsLen forbidden_path == 1
            || strEndsWith (strOfPath path) (strOfPath forbidden_path)) then
      (true, f.details)
    else forbiddenLoop path rest

/-- Embedding of `tool_check.check_forbidden_path` (the legacy
suffix-matching path matcher). -/
def check_forbidden_path (file_path : String) (forbidden_list : List PathRule) :
    Bool × Details :=
  if file_path = "" then (false, ⟨none, none⟩)
  else forbiddenLoop (pathOfString file_path) forbidden_list

end ToolCheck

namespace AgentRules

/-- Loop of `agent_rules.check_command` over `deny_commands`. -/
def scanSearch : List CmdRule → String → Option Details
  | [], _ => none
  | r :: rest, cmd =>
    if reSearch r.pattern cmd then some r.details else scanSearch rest cmd

/-- Loops of `agent_rules.check_command` over `confirm_commands` and
`allow_commands`. -/
def scanFull : List CmdRule → String → Option Details
  | [], _ => none
  | r :: rest, cmd =>
    if reFullmatch r.pattern cmd then some r.details else scanFull rest cmd

/-- Embedding of `agent_rules.check_command` (verbatim copy of the
`tool_check.py` logic in the source). -/
def check_command (command : String) (rules : Rules) : Option Status × Details :=
  if command = "" then (none, ⟨none, none⟩)
  else
    match scanSearch rules.deny_commands command with
    | some d => (some Status.deny, d)
    | none =>
      match scanFull rules.confirm_commands command with
      | some d => (some Status.ask, d)
      | none =>
        match scanFull rules.allow_commands command with
        | some d => (some Status.allow, d)
        | none => (none, ⟨none, none⟩)

/-- Resolution of one `deny_edits` entry in `agent_rules.check_path`:
an absolute entry is resolved as-is, a relative one is first joined to
the rules-file directory. -/
def resolveEntry (base_dir cwd : PPath) (entry : String) : PPath :=
  let forbidden_path := pathOfString entry
  if forbidden_path.absolute then resolvePath forbidden_path cwd
  else resolvePath (pathJoin base_dir forbidden_path) cwd

/-- Loop of `agent_rules.check_path` over the deny list: exact equality
of resolved paths, or the candidate `is_relative_to` the entry. -/
def checkPathLoop (file_path_abs : PPath) : List PathRule → PPath → PPath → Bool × Details
  | [], _, _ => (false, ⟨none, none⟩)
  | f :: rest, base_dir, cwd =>
    let forbidden_path_abs := resolveEntry base_dir cwd f.path
    if file_path_abs = forbidden_path_abs then (true, f.details)
    else if isRelativeTo file_path_abs forbidden_path_abs then (true, f.details)
    else checkPathLoop file_path_abs rest base_dir cwd

/-- Embedding of `agent_rules.check_path`: resolve the candidate against
the process working directory, then scan the deny list. -/
def check_path (file_path : String) (deny_list : List PathRule)
    (base_dir cwd : PPath) : Bool × Details :=
  if file_path = "" then (false, ⟨none, none⟩)
  else checkPathLoop (resolvePath (pathOfString file_path) cwd) deny_list base_dir cwd

end AgentRules

namespace CheckAgentRules

/-- Loop of `check_agent_rules.check_command` over `deny_commands`. -/
def scanSearch : List CmdRule → String → Option Details
  | [], _ => none
  | r :: rest, cmd =>
    if reSearch r.pattern cmd then some r.details else scanSearch rest cmd

/-- Loops of `check_agent_rules.check_command` over `confirm_commands`
and `allow_commands`. -/
def scanFull : List CmdRule → String → Option Details
  | [], _ => none
  | r :: rest, cmd =>
    if reFullmatch r.pattern cmd then some r.details else scanFull rest cmd

/-- Embedding of `check_agent_rules.check_command`: deny rules first
(`re.search`), then confirm rules (`re.fullmatch`), then allow rules
(`re.fullmatch`); an empty command gets no decision. -/
def check_command (command : String) (rules : Rules) : Option Status × Details :=
  if command = "" then (none, ⟨none, none⟩)
  else
    match scanSearch rules.deny_commands command with
    | some d => (some Status.deny, d)
    | none =>
      match scanFull rules.confirm_commands command with
      | some d => (some Status.ask, d)
      | none =>
        match scanFull rules.allow_commands command with
        | some d => (some Status.allow, d)
        | none => (none, ⟨none, none⟩)

/-- Resolution of one `deny_edits` entry in `check_agent_rules.check_path`. -/
def resolveEntry (base_dir cwd : PPath) (entry : String) : PPath :=
  let forbidden_path := pathOfString entry
  if forbidden_path.absolute then resolvePath forbidden_path cwd
  else resolvePath (pathJoin base_dir forbidden_path) cwd

/-- Loop of `check_agent_rules.check_path` over the deny list. -/
def checkPathLoop (file_path_abs : PPath) : List PathRule → PPath → PPath → Bool × Details
  | [], _, _ => (false, ⟨none, none⟩)
  | f :: rest, base_dir, cwd =>
    let forbidden_path_abs := resolveEntry base_dir cwd f.path
    if file_path_abs = forbidden_path_abs then (true, f.details)
    else if isRelativeTo file_path_abs forbidden_path_abs then (true, f.details)
    else checkPathLoop file_path_abs rest base_dir cwd

/-- Embedding of `check_agent_rules.check_path` (verbatim copy of the
`agent_rules.py` logic in the source). -/
def check_path (file_path : String) (deny_list : List PathRule)
    (base_dir cwd : PPath) : Bool × Details :=
  if file_path = "" then (false, ⟨none, none⟩)
  else checkPathLoop (resolvePath (pathOfString file_path) cwd) deny_list base_dir cwd

/-- Embedding of `check_agent_rules.output_decision`: the JSON object
printed for a decision.  The vscode-copilot shape nests everything under
`hookSpecificOutput`; the copilot-cli shape is flat and never carries a
context field.  `if reason:` / `if context:` use Python truthiness. -/
def output_decision (decision : String) (tool_format : ToolFormat)
    (reason context : Option String) : JVal :=
  match tool_format with
  | ToolFormat.vscodeCopilot =>
    let inner := [("hookEventName", JVal.str "PreToolUse"),
                  ("permissionDecision", JVal.str decision)]
    let inner := if truthy reason
      then inner ++ [("permissionDecisionReason", JVal.str (reason.getD ""))]
      else inner
    let inner := if truthy context
      then inner ++ [("additionalContext", JVal.str (context.getD ""))]
      else inner
    JVal.obj [("hookSpecificOutput", JVal.obj inner)]
  | ToolFormat.copilotCli =>
    let fields := [("permissionDecision", JVal.str decision)]
    let fields := if truthy reason
      then fields ++ [("permissionDecisionReason", JVal.str (reason.getD ""))]
      else fields
    JVal.obj fields

/-- Arguments of an edit-like action, as `process_editing_tool` reads
them: an optional `path` value and an optional `paths` list (absent key
is `none`). -/
structure EditArgs where
  path : Option String := none
  paths : Option (List String) := none

/-- The `paths_to_check` list built by `process_editing_tool`: the
single `path` argument when truthy, then every entry of `paths` when
that key is present. -/
def collectPaths (args : EditArgs) : List String :=
  (if truthy args.path then [args.path.getD ""] else [])
    ++ (match args.paths with | some l => l | none => [])

/-- Loop of `process_editing_tool` over `paths_to_check`: the first
forbidden path emits one `deny` decision and stops the scan. -/
def editLoop : List String → List PathRule → PPath → PPath → ToolFormat → Bool × List JVal
  | [], _, _, _, _ => (false, [])
  | p :: rest, deny_list, rules_dir, cwd, fmt =>
    let res := check_path p deny_list rules_dir cwd
    if res.1 then
      (true, [output_decision "deny" fmt res.2.reason res.2.context])
    else editLoop rest deny_list rules_dir cwd fmt

/-- Embedding of `check_agent_rules.process_editing_tool`.  The second
component lists the JSON decisions written to stdout (one
`output_decision` call per element). -/
def process_editing_tool (args : EditArgs) (rules : Rules) (rules_dir cwd : PPath)
    (tool_format : ToolFormat) : Bool × List JVal :=
  editLoop (collectPaths args) rules.deny_edits rules_dir cwd tool_format

end CheckAgentRules

/-- Fields of a flat JSON object (used to state properties of the
copilot-cli output shape). -/
def cliFields : JVal → List (String × JVal)
  | JVal.obj fields => fields
  | JVal.str _ => []

/-- Specification-side predicate for one `deny_edits` entry, following
the spec's words: the resolved entry equals the resolved candidate, or
the resolved candidate is a descendant of (the entry an equal-or-proper
ancestor of) the resolved candidate. -/
def entryHits (file_path_abs base_dir cwd : PPath) (r : PathRule) : Bool :=
  (file_path_abs = CheckAgentRules.resolveEntry base_dir cwd r.path)
    || isRelativeTo file_path_abs (CheckAgentRules.resolveEntry base_dir cwd r.path)

/-- Specification-side predicate for one entry of the legacy matcher
`tool_check.check_forbidden_path`: final components equal, and the entry
is a single component or the candidate string ends with the entry
string. -/
def legacyHit (p : PPath) (r : PathRule) : Bool :=
  let fp := pathOfString r.path
  (pathName p == pathName fp)
    && (pyPartsLen fp == 1 || strEndsWith (strOfPath p) (strOfPath fp))

theorem scanSearch_none_iff (l : List CmdRule) (cmd : String) :
    CheckAgentRules.scanSearch l cmd = none ↔ ∀ r ∈ l, reSearch r.pattern cmd = false := by
  induction l with
  | nil => simp [CheckAgentRules.scanSearch]
  | cons r rest ih =>
    by_cases h : reSearch r.pattern cmd = true
    · simp [CheckAgentRules.scanSearch, h]
    · have h' : reSearch r.pattern cmd = false := by simpa using h
      simp [CheckAgentRules.scanSearch, h', ih]

theorem scanFull_none_iff (l : List CmdRule) (cmd : String) :
    CheckAgentRules.scanFull l cmd = none ↔ ∀ r ∈ l, reFullmatch r.pattern cmd = false := by
  induction l with
  | nil => simp [CheckAgentRules.scanFull]
  | cons r rest ih =>
    by_cases h : reFullmatch r.pattern cmd = true
    · simp [CheckAgentRules.scanFull, h]
    · have h' : reFullmatch r.pattern cmd = false := by simpa using h
      simp [CheckAgentRules.scanFull, h', ih]

theorem scanSearch_some_exists (l : List CmdRule) (cmd : String) (d : Details)
    (h : CheckAgentRules.scanSearch l cmd = some d) :
    ∃ r ∈ l, reSearch r.pattern cmd = true ∧ d = r.details := by
  induction l with
  | nil => simp [CheckAgentRules.scanSearch] at h
  | cons r rest ih =>
    by_cases hr : reSearch r.pattern cmd = true
    · refine ⟨r, by simp, hr, ?_⟩
      simp [CheckAgentRules.scanSearch, hr] at h
      exact h.symm
    · have h' : reSearch r.pattern cmd = false := by simpa using hr
      simp [CheckAgentRules.scanSearch, h'] at h
      obtain ⟨q, hq, hm, hd⟩ := ih h
      exact ⟨q, by simp [hq], hm, hd⟩

theorem scanFull_some_exists (l : List CmdRule) (cmd : String) (d : Details)
    (h : CheckAgentRules.scanFull l cmd = some d) :
    ∃ r ∈ l, reFullmatch r.pattern cmd = true ∧ d = r.details := by
  induction l with
  | nil => simp [CheckAgentRules.scanFull] at h
  | cons r rest ih =>
    by_cases hr : reFullmatch r.pattern cmd = true
    · refine ⟨r, by simp, hr, ?_⟩
      simp [CheckAgentRules.scanFull, hr] at h
      exact h.symm
    · have h' : reFullmatch r.pattern cmd = false := by simpa using hr
      simp [CheckAgentRules.scanFull, h'] at h
      obtain ⟨q, hq, hm, hd⟩ := ih h
      exact ⟨q, by simp [hq], hm, hd⟩

theorem scanSearch_append (pre post : List CmdRule) (r : CmdRule) (cmd : String)
    (hpre : ∀ q ∈ pre, reSearch q.pattern cmd = false)
    (hr : reSearch r.pattern cmd = true) :
    CheckAgentRules.scanSearch (pre ++ r :: post) cmd = some r.details := by
  induction pre with
  | nil => simp [CheckAgentRules.scanSearch, hr]
  | cons q qs ih =>
    have hq : reSearch q.pattern cmd = false := hpre q (by simp)
    simp only [List.cons_append, CheckAgentRules.scanSearch, hq]
    simp only [Bool.false_eq_true, if_false]
    exact ih (fun x hx => hpre x (by simp [hx]))

theorem check_command_ne_empty (cmd : String) (rules : Rules) (hc : cmd ≠ "") :
    CheckAgentRules.check_command cmd rules =
      match CheckAgentRules.scanSearch rules.deny_commands cmd with
      | some d => (some Status.deny, d)
      | none =>
        match CheckAgentRules.scanFull rules.confirm_commands cmd with
        | some d => (some Status.ask, d)
        | none =>
          match CheckAgentRules.scanFull rules.allow_commands cmd with
          | some d => (some Status.allow, d)
          | none => (none, ⟨none, none⟩) := by
  simp [CheckAgentRules.check_command, hc]

theorem checkPathLoop_cons (fa : PPath) (f : PathRule) (rest : List PathRule)
    (base cwd : PPath) :
    CheckAgentRules.checkPathLoop fa (f :: rest) base cwd =
      if entryHits fa base cwd f then (true, f.details)
      else CheckAgentRules.checkPathLoop fa rest base cwd := by
  by_cases h1 : fa = CheckAgentRules.resolveEntry base cwd f.path
  · simp [CheckAgentRules.checkPathLoop, entryHits, h1]
  · by_cases h2 : isRelativeTo fa (CheckAgentRules.resolveEntry base cwd f.path) = true
    · simp [CheckAgentRules.checkPathLoop, entryHits, h1, h2]
    · have h2' : isRelativeTo fa (CheckAgentRules.resolveEntry base cwd f.path) = false := by
        simpa using h2
      simp [CheckAgentRules.checkPathLoop, entryHits, h1, h2']

theorem checkPathLoop_true_iff (fa : PPath) (l : List PathRule) (base cwd : PPath) :
    (CheckAgentRules.checkPathLoop fa l base cwd).1 = true ↔
      ∃ r ∈ l, entryHits fa base cwd r = true := by
  induction l with
  | nil => simp [CheckAgentRules.checkPathLoop]
  | cons f rest ih =>
    rw [checkPathLoop_cons]
    by_cases h : entryHits fa base cwd f = true
    · simp [h]
    · have h' : entryHits fa base cwd f = false := by simpa using h
      simp [h', ih]

theorem checkPathLoop_append (fa : PPath) (pre post : List PathRule) (r : PathRule)
    (base cwd : PPath)
    (hpre : ∀ q ∈ pre, entryHits fa base cwd q = false)
    (hr : entryHits fa base cwd r = true) :
    CheckAgentRules.checkPathLoop fa (pre ++ r :: post) base cwd = (true, r.details) := by
  induction pre with
  | nil => rw [List.nil_append, checkPathLoop_cons, if_pos hr]
  | cons q qs ih =>
    have hq : entryHits fa base cwd q = false := hpre q (by simp)
    rw [List.cons_append, checkPathLoop_cons, hq]
    simp only [Bool.false_eq_true, if_false]
    exact ih (fun x hx => hpre x (by simp [hx]))

theorem forbiddenLoop_cons (p : PPath) (f : PathRule) (rest : List PathRule) :
    ToolCheck.forbiddenLoop p (f :: rest) =
      if legacyHit p f then (true, f.details)
      else ToolCheck.forbiddenLoop p rest := by
  rfl

theorem forbiddenLoop_true_iff (p : PPath) (l : List PathRule) :
    (ToolCheck.forbiddenLoop p l).1 = true ↔ ∃ r ∈ l, legacyHit p r = true := by
  induction l with
  | nil => simp [ToolCheck.forbiddenLoop]
  | cons f rest ih =>
    rw [forbiddenLoop_cons]
    by_cases h : legacyHit p f = true
    · simp [h]
    · have h' : legacyHit p f = false := by simpa using h
      simp [h', ih]

theorem forbiddenLoop_append (p : PPath) (pre post : List PathRule) (r : PathRule)
    (hpre : ∀ q ∈ pre, legacyHit p q = false)
    (hr : legacyHit p r = true) :
    ToolCheck.forbiddenLoop p (pre ++ r :: post) = (true, r.details) := by
  induction pre with
  | nil => rw [List.nil_append, forbiddenLoop_cons, if_pos hr]
  | cons q qs ih =>
    have hq : legacyHit p q = false := hpre q (by simp)
    rw [List.cons_append, forbiddenLoop_cons, hq]
    simp only [Bool.false_eq_true, if_false]
    exact ih (fun x hx => hpre x (by simp [hx]))

theorem editLoop_none (l : List String) (dl : List PathRule) (base cwd : PPath)
    (fmt : ToolFormat)
    (h : ∀ p ∈ l, (CheckAgentRules.check_path p dl base cwd).1 = false) :
    CheckAgentRules.editLoop l dl base cwd fmt = (false, []) := by
  induction l with
  | nil => simp [CheckAgentRules.editLoop]
  | cons p rest ih =>
    have hp : (CheckAgentRules.check_path p dl base cwd).1 = false := h p (by simp)
    simp only [CheckAgentRules.editLoop, hp]
    simp only [Bool.false_eq_true, if_false]
    exact ih (fun x hx => h x (by simp [hx]))

theorem editLoop_append (pre post : List String) (p : String) (dl : List PathRule)
    (base cwd : PPath) (fmt : ToolFormat)
    (hpre : ∀ q ∈ pre, (CheckAgentRules.check_path q dl base cwd).1 = false)
    (hp : (CheckAgentRules.check_path p dl base cwd).1 = true) :
    CheckAgentRules.editLoop (pre ++ p :: post) dl base cwd fmt =
      (true, [CheckAgentRules.output_decision "deny" fmt
        (CheckAgentRules.check_path p dl base cwd).2.reason
        (CheckAgentRules.check_path p dl base cwd).2.context]) := by
  induction pre with
  | nil =>
    simp only [List.nil_append, CheckAgentRules.editLoop, hp]
    simp
  | cons q qs ih =>
    have hq : (CheckAgentRules.check_path q dl base cwd).1 = false := hpre q (by simp)
    simp only [List.cons_append, CheckAgentRules.editLoop, hq]
    simp only [Bool.false_eq_true, if_false]
    exact ih (fun x hx => hpre x (by simp [hx]))

/-- C1: for every nonempty command string and every ruleset,
`check_command` in `check_agent_rules.py` applies the three lists in the
fixed order deny, then confirm, then allow: a deny match (search
semantics) yields `deny` regardless of the other lists; with no deny
match, a confirm full match yields `ask` regardless of allow matches;
with no match in any list the result is no decision with empty details.
The empty command is handled separately (see the matching-anomaly
theorem). -/
theorem check_command_precedence (cmd : String) (rules : Rules) (hc : cmd ≠ "") :
    ((∃ r ∈ rules.deny_commands, reSearch r.pattern cmd = true) →
      (CheckAgentRules.check_command cmd rules).1 = some Status.deny)
  ∧ ((∀ r ∈ rules.deny_commands, reSearch r.pattern cmd = false) →
      (∃ r ∈ rules.confirm_commands, reFullmatch r.pattern cmd = true) →
      (CheckAgentRules.check_command cmd rules).1 = some Status.ask)
  ∧ ((∀ r ∈ rules.deny_commands, reSearch r.pattern cmd = false) →
      (∀ r ∈ rules.confirm_commands, reFullmatch r.pattern cmd = false) →
      (∃ r ∈ rules.allow_commands, reFullmatch r.pattern cmd = true) →
      (CheckAgentRules.check_command cmd rules).1 = some Status.allow)
  ∧ ((∀ r ∈ rules.deny_commands, reSearch r.pattern cmd = false) →
      (∀ r ∈ rules.confirm_commands, reFullmatch r.pattern cmd = false) →
      (∀ r ∈ rules.allow_commands, reFullmatch r.pattern cmd = false) →
      CheckAgentRules.check_command cmd rules = (none, ⟨none, none⟩)) := by
  refine ⟨?_, ?_, ?_, ?_⟩
  · rintro ⟨r, hmem, hmatch⟩
    cases h : CheckAgentRules.scanSearch rules.deny_commands cmd with
    | none =>
      have := (scanSearch_none_iff _ _).mp h r hmem
      rw [hmatch] at this
      cases this
    | some d =>
      rw [check_command_ne_empty cmd rules hc, h]
  · intro hdeny hconf
    have hd : CheckAgentRules.scanSearch rules.deny_commands cmd = none :=
      (scanSearch_none_iff _ _).mpr hdeny
    cases h : CheckAgentRules.scanFull rules.confirm_commands cmd with
    | none =>
      obtain ⟨r, hmem, hmatch⟩ := hconf
      have := (scanFull_none_iff _ _).mp h r hmem
      rw [hmatch] at this
      cases this
    | some d =>
      rw [check_command_ne_empty cmd rules hc, hd, h]
  · intro hdeny hconf hallow
    have hd : CheckAgentRules.scanSearch rules.deny_commands cmd = none :=
      (scanSearch_none_iff _ _).mpr hdeny
    have hcf : CheckAgentRules.scanFull rules.confirm_commands cmd = none :=
      (scanFull_none_iff _ _).mpr hconf
    cases h : CheckAgentRules.scanFull rules.allow_commands cmd with
    | none =>
      obtain ⟨r, hmem, hmatch⟩ := hallow
      have := (scanFull_none_iff _ _).mp h r hmem
      rw [hmatch] at this
      cases this
    | some d =>
      rw [check_command_ne_empty cmd rules hc, hd, hcf, h]
  · intro hdeny hconf hallow
    rw [check_command_ne_empty cmd rules hc,
      (scanSearch_none_iff _ _).mpr hdeny,
      (scanFull_none_iff _ _).mpr hconf,
      (scanFull_none_iff _ _).mpr hallow]

/-- Witness for C1 at end-to-end scenario 4 of the spec: a confirm rule
`git push.*--force.*` beats an allow rule `git push.*` on the command
`git push --force`. -/
theorem check_command_precedence_witness :
    (CheckAgentRules.check_command "git push --force"
      { allow_commands := [{ pattern := "git push.*" }],
        confirm_commands := [{ pattern := "git push.*--force.*" }] }).1
      = some Status.ask :=
  (check_command_precedence "git push --force"
    { allow_commands := [{ pattern := "git push.*" }],
      confirm_commands := [{ pattern := "git push.*--force.*" }] }
    (by decide)).2.1 (by decide) (by decide)

/-- C2: a confirm rule yields `ask` and an allow rule yields `allow`
only on a full-string match of the whole command; in particular the
allow pattern `git push` accepts the command `git push` but not
`git push upstream feature`, which contains it as a proper prefix. -/
theorem check_command_full_anchoring :
    (∀ (cmd : String) (rules : Rules),
      (CheckAgentRules.check_command cmd rules).1 = some Status.ask →
      ∃ r ∈ rules.confirm_commands, reFullmatch r.pattern cmd = true)
  ∧ (∀ (cmd : String) (rules : Rules),
      (CheckAgentRules.check_command cmd rules).1 = some Status.allow →
      ∃ r ∈ rules.allow_commands, reFullmatch r.pattern cmd = true)
  ∧ CheckAgentRules.check_command "git push"
      { allow_commands := [{ pattern := "git push" }] } = (some Status.allow, ⟨none, none⟩)
  ∧ CheckAgentRules.check_command "git push upstream feature"
      { allow_commands := [{ pattern := "git push" }] } = (none, ⟨none, none⟩) := by
  refine ⟨?_, ?_, by decide, by decide⟩
  · intro cmd rules h
    by_cases hc : cmd = ""
    · subst hc
      simp [CheckAgentRules.check_command] at h
    · rw [check_command_ne_empty cmd rules hc] at h
      cases h1 : CheckAgentRules.scanSearch rules.deny_commands cmd with
      | some d => rw [h1] at h; simp at h
      | none =>
        rw [h1] at h
        cases h2 : CheckAgentRules.scanFull rules.confirm_commands cmd with
        | some d =>
          obtain ⟨r, hmem, hmatch, _⟩ := scanFull_some_exists _ _ _ h2
          exact ⟨r, hmem, hmatch⟩
        | none =>
          rw [h2] at h
          cases h3 : CheckAgentRules.scanFull rules.allow_commands cmd with
          | some d => rw [h3] at h; simp at h
          | none => rw [h3] at h; simp at h
  · intro cmd rules h
    by_cases hc : cmd = ""
    · subst hc
      simp [CheckAgentRules.check_command] at h
    · rw [check_command_ne_empty cmd rules hc] at h
      cases h1 : CheckAgentRules.scanSearch rules.deny_commands cmd with
      | some d => rw [h1] at h; simp at h
      | none =>
        rw [h1] at h
        cases h2 : CheckAgentRules.scanFull rules.confirm_commands cmd with
        | some d => rw [h2] at h; simp at h
        | none =>
          rw [h2] at h
          cases h3 : CheckAgentRules.scanFull rules.allow_commands cmd with
          | some d =>
            obtain ⟨r, hmem, hmatch, _⟩ := scanFull_some_exists _ _ _ h3
            exact ⟨r, hmem, hmatch⟩
          | none => rw [h3] at h; simp at h

/-- Witness for C2: the confirm rule `rm -rf.*` fires with `ask` on the
command `rm -rf /tmp/test`, so a full match in the confirm list exists. -/
theorem check_command_full_anchoring_witness :
    ∃ r ∈ [({ pattern := "rm -rf.*" } : CmdRule)],
      reFullmatch r.pattern "rm -rf /tmp/test" = true :=
  check_command_full_anchoring.1 "rm -rf /tmp/test"
    { confirm_commands := [{ pattern := "rm -rf.*" }] } (by decide)

/-- C3: within the deny list the first rule whose pattern
`re.search`-matches the command wins, later deny rules are not examined,
and the returned details are exactly that rule's reason and context. -/
theorem check_command_deny_first_match (cmd : String) (rules : Rules)
    (pre post : List CmdRule) (r : CmdRule) (hc : cmd ≠ "")
    (hsplit : rules.deny_commands = pre ++ r :: post)
    (hpre : ∀ q ∈ pre, reSearch q.pattern cmd = false)
    (hr : reSearch r.pattern cmd = true) :
    CheckAgentRules.check_command cmd rules = (some Status.deny, r.details) := by
  rw [check_command_ne_empty cmd rules hc, hsplit, scanSearch_append pre post r cmd hpre hr]

/-- Witness for C3 at the claim's concrete scenario: the ruleset with
the single deny rule `rm -rf` (reason `Dangerous`) denies the command
`echo hi && rm -rf /tmp` with reason `Dangerous`. -/
theorem check_command_deny_first_match_witness :
    CheckAgentRules.check_command "echo hi && rm -rf /tmp"
      { deny_commands := [{ pattern := "rm -rf", reason := some "Dangerous" }] }
      = (some Status.deny, ⟨some "Dangerous", none⟩) :=
  check_command_deny_first_match "echo hi && rm -rf /tmp"
    { deny_commands := [{ pattern := "rm -rf", reason := some "Dangerous" }] }
    [] [] { pattern := "rm -rf", reason := some "Dangerous" }
    (by decide) rfl (by decide) (by decide)

/-- Loop agreement: the deny-list loop of `tool_check.check_command`
and of `agent_rules.check_command` coincide. -/
theorem scanSearch_tc_ar (l : List CmdRule) (cmd : String) :
    ToolCheck.scanSearch l cmd = AgentRules.scanSearch l cmd := by
  induction l with
  | nil => rfl
  | cons r rest ih => simp only [ToolCheck.scanSearch, AgentRules.scanSearch, ih]

/-- Loop agreement for the confirm/allow loops of `tool_check.py` and
`agent_rules.py`. -/
theorem scanFull_tc_ar (l : List CmdRule) (cmd : String) :
    ToolCheck.scanFull l cmd = AgentRules.scanFull l cmd := by
  induction l with
  | nil => rfl
  | cons r rest ih => simp only [ToolCheck.scanFull, AgentRules.scanFull, ih]

/-- Loop agreement for the deny loops of `agent_rules.py` and
`check_agent_rules.py`. -/
theorem scanSearch_ar_car (l : List CmdRule) (cmd : String) :
    AgentRules.scanSearch l cmd = CheckAgentRules.scanSearch l cmd := by
  induction l with
  | nil => rfl
  | cons r rest ih => simp only [AgentRules.scanSearch, CheckAgentRules.scanSearch, ih]

/-- Loop agreement for the confirm/allow loops of `agent_rules.py` and
`check_agent_rules.py`. -/
theorem scanFull_ar_car (l : List CmdRule) (cmd : String) :
    AgentRules.scanFull l cmd = CheckAgentRules.scanFull l cmd := by
  induction l with
  | nil => rfl
  | cons r rest ih => simp only [AgentRules.scanFull, CheckAgentRules.scanFull, ih]

/-- C9: the three `check_command` functions of `tool_check.py`,
`agent_rules.py` and `check_agent_rules.py` are extensionally equal:
the source bodies are verbatim copies of one another. -/
theorem check_command_copies_agree :
    ∀ (cmd : String) (rules : Rules),
      ToolCheck.check_command cmd rules = AgentRules.check_command cmd rules
      ∧ AgentRules.check_command cmd rules = CheckAgentRules.check_command cmd rules := by
  intro cmd rules
  constructor
  · by_cases hc : cmd = ""
    · simp [ToolCheck.check_command, AgentRules.check_command, hc]
    · simp only [ToolCheck.check_command, AgentRules.check_command, if_neg hc,
        scanSearch_tc_ar, scanFull_tc_ar]
  · by_cases hc : cmd = ""
    · simp [AgentRules.check_command, CheckAgentRules.check_command, hc]
    · simp only [AgentRules.check_command, CheckAgentRules.check_command, if_neg hc,
        scanSearch_ar_car, scanFull_ar_car]

theorem resolvePath_absolute (p cwd : PPath) (h : p.absolute = true) :
    resolvePath p cwd = ⟨true, normParts p.parts⟩ := by
  simp [resolvePath, h]

theorem resolveEntry_cwd_indep (base cwd1 cwd2 : PPath) (hb : base.absolute = true)
    (e : String) :
    CheckAgentRules.resolveEntry base cwd1 e = CheckAgentRules.resolveEntry base cwd2 e := by
  by_cases ha : (pathOfString e).absolute = true
  · simp only [CheckAgentRules.resolveEntry, ha, if_true,
      resolvePath_absolute _ _ ha]
  · have ha' : (pathOfString e).absolute = false := by simpa using ha
    have habs : (pathJoin base (pathOfString e)).absolute = true := by
      simp [pathJoin, ha', hb]
    simp only [CheckAgentRules.resolveEntry, ha', Bool.false_eq_true, if_false,
      resolvePath_absolute _ _ habs]

theorem checkPathLoop_cwd_indep (fa : PPath) (l : List PathRule)
    (base cwd1 cwd2 : PPath) (hb : base.absolute = true) :
    CheckAgentRules.checkPathLoop fa l base cwd1
      = CheckAgentRules.checkPathLoop fa l base cwd2 := by
  induction l with
  | nil => rfl
  | cons f rest ih =>
    simp only [CheckAgentRules.checkPathLoop,
      resolveEntry_cwd_indep base cwd1 cwd2 hb f.path, ih]

theorem resolveEntry_ar_car :
    AgentRules.resolveEntry = CheckAgentRules.resolveEntry := rfl

theorem checkPathLoop_ar_car (fa : PPath) (l : List PathRule) (base cwd : PPath) :
    AgentRules.checkPathLoop fa l base cwd = CheckAgentRules.checkPathLoop fa l base cwd := by
  induction l with
  | nil => rfl
  | cons f rest ih =>
    simp only [AgentRules.checkPathLoop, CheckAgentRules.checkPathLoop,
      resolveEntry_ar_car, ih]

/-- C4: for every nonempty candidate path, deny list, rules directory
and process working directory, `check_path` reports forbidden exactly
when some deny entry, resolved against the rules directory when relative
and as-is when absolute, equals the resolved candidate or is an
equal-or-proper ancestor of it; the first matching entry in list order
supplies the returned details.  The empty candidate is handled
separately (see the matching-anomaly theorem). -/
theorem check_path_characterization (f : String) (dl : List PathRule)
    (base cwd : PPath) (hf : f ≠ "") :
    ((CheckAgentRules.check_path f dl base cwd).1 = true ↔
      ∃ r ∈ dl, entryHits (resolvePath (pathOfString f) cwd) base cwd r = true)
  ∧ (∀ (pre post : List PathRule) (r : PathRule), dl = pre ++ r :: post →
      (∀ q ∈ pre, entryHits (resolvePath (pathOfString f) cwd) base cwd q = false) →
      entryHits (resolvePath (pathOfString f) cwd) base cwd r = true →
      CheckAgentRules.check_path f dl base cwd = (true, r.details)) := by
  constructor
  · simp only [CheckAgentRules.check_path, if_neg hf]
    exact checkPathLoop_true_iff _ _ _ _
  · intro pre post r hsplit hpre hr
    simp only [CheckAgentRules.check_path, if_neg hf, hsplit]
    exact checkPathLoop_append _ _ _ _ _ _ hpre hr

/-- Witness for C4 at the claim's example: the relative entry
`secrets/` with rules directory `/repo` forbids the file
`/repo/secrets/keys.pem`, two levels beneath the denied directory. -/
theorem check_path_characterization_witness :
    (CheckAgentRules.check_path "/repo/secrets/keys.pem"
      [{ path := "secrets/" }] (pathOfString "/repo") (pathOfString "/tmp")).1 = true :=
  (check_path_characterization "/repo/secrets/keys.pem" [{ path := "secrets/" }]
    (pathOfString "/repo") (pathOfString "/tmp") (by decide)).1.mpr (by decide)

/-- C6 counterexample: resolved-path comparison does not hold at every
path-matching entry point.  The legacy matcher
`tool_check.check_forbidden_path` disagrees with the resolution-based
containment matcher `check_agent_rules.check_path` on the candidate
`/repo/secrets/keys.pem` against the deny entry `secrets/` with rules
directory `/repo`: the resolved comparison forbids the file, the legacy
unresolved comparison does not. -/
theorem path_comparison_not_always_resolved :
    ¬ (∀ (f : String) (dl : List PathRule) (base cwd : PPath),
        (ToolCheck.check_forbidden_path f dl).1
          = (CheckAgentRules.check_path f dl base cwd).1) := by
  intro h
  exact absurd
    (h "/repo/secrets/keys.pem" [{ path := "secrets/" }]
      (pathOfString "/repo") (pathOfString "/repo"))
    (by decide)

/-- C6 amended: the resolution-based path matchers (`check_path` in
`agent_rules.py` and `check_agent_rules.py`) are one and the same
function, and they compare resolved paths with relative deny entries
resolved against the rules-file directory and never against the process
working directory: with an absolute candidate and an absolute rules
directory the verdict does not depend on the process working
directory.  The legacy `tool_check.check_forbidden_path` is exempt: it
compares unresolved strings. -/
theorem check_path_resolved_invariance :
    (∀ (f : String) (dl : List PathRule) (b c : PPath),
      AgentRules.check_path f dl b c = CheckAgentRules.check_path f dl b c)
  ∧ (∀ (f : String) (dl : List PathRule) (base cwd1 cwd2 : PPath),
      (pathOfString f).absolute = true → base.absolute = true →
      CheckAgentRules.check_path f dl base cwd1
        = CheckAgentRules.check_path f dl base cwd2) := by
  constructor
  · intro f dl b c
    by_cases hf : f = ""
    · simp [AgentRules.check_path, CheckAgentRules.check_path, hf]
    · simp only [AgentRules.check_path, CheckAgentRules.check_path, if_neg hf,
        checkPathLoop_ar_car]
  · intro f dl base cwd1 cwd2 hf hb
    by_cases hf0 : f = ""
    · simp [CheckAgentRules.check_path, hf0]
    · simp only [CheckAgentRules.check_path, if_neg hf0,
        resolvePath_absolute _ _ hf]
      exact checkPathLoop_cwd_indep _ _ base cwd1 cwd2 hb

/-- Witness for the amended C6: with absolute candidate `/a/s/f` and
absolute rules directory `/a`, two different process working
directories give the same verdict. -/
theorem check_path_resolved_invariance_witness :
    CheckAgentRules.check_path "/a/s/f" [{ path := "s" }]
        (pathOfString "/a") (pathOfString "/c1")
      = CheckAgentRules.check_path "/a/s/f" [{ path := "s" }]
        (pathOfString "/a") (pathOfString "/c2") :=
  check_path_resolved_invariance.2 "/a/s/f" [{ path := "s" }]
    (pathOfString "/a") (pathOfString "/c1") (pathOfString "/c2")
    (by decide) (by decide)

theorem checkPathLoop_details_none (fa : PPath) (l : List PathRule) (base cwd : PPath)
    (h : ∀ r ∈ l, r.reason = none ∧ r.context = none) :
    (CheckAgentRules.checkPathLoop fa l base cwd).2 = ⟨none, none⟩ := by
  induction l with
  | nil => rfl
  | cons f rest ih =>
    rw [checkPathLoop_cons]
    by_cases hh : entryHits fa base cwd f = true
    · obtain ⟨h1, h2⟩ := h f (by simp)
      simp [hh, PathRule.details, h1, h2]
    · have hh' : entryHits fa base cwd f = false := by simpa using hh
      rw [hh']
      simp only [Bool.false_eq_true, if_false]
      exact ih (fun x hx => h x (by simp [hx]))

/-- C7: matching-time anomalies raise no errors.  An empty command gets
no decision with empty details; an empty candidate path is not
forbidden, with empty details; and when every rule that could match
lacks the optional reason and context fields, the returned details
simply omit both fields. -/
theorem matching_anomalies_locally_handled :
    (∀ rules : Rules, CheckAgentRules.check_command "" rules = (none, ⟨none, none⟩))
  ∧ (∀ (dl : List PathRule) (base cwd : PPath),
      CheckAgentRules.check_path "" dl base cwd = (false, ⟨none, none⟩))
  ∧ (∀ (cmd : String) (rules : Rules),
      (∀ r ∈ rules.deny_commands, r.reason = none ∧ r.context = none) →
      (∀ r ∈ rules.confirm_commands, r.reason = none ∧ r.context = none) →
      (∀ r ∈ rules.allow_commands, r.reason = none ∧ r.context = none) →
      (CheckAgentRules.check_command cmd rules).2 = ⟨none, none⟩)
  ∧ (∀ (f : String) (dl : List PathRule) (base cwd : PPath),
      (∀ r ∈ dl, r.reason = none ∧ r.context = none) →
      (CheckAgentRules.check_path f dl base cwd).2 = ⟨none, none⟩) := by
  refine ⟨fun rules => rfl, fun dl base cwd => rfl, ?_, ?_⟩
  · intro cmd rules hd hcf hal
    by_cases hc : cmd = ""
    · simp [CheckAgentRules.check_command, hc]
    · rw [check_command_ne_empty cmd rules hc]
      cases h1 : CheckAgentRules.scanSearch rules.deny_commands cmd with
      | some d =>
        obtain ⟨r, hmem, _, hdet⟩ := scanSearch_some_exists _ _ _ h1
        obtain ⟨h1r, h2r⟩ := hd r hmem
        subst hdet
        simp [CmdRule.details, h1r, h2r]
      | none =>
        cases h2 : CheckAgentRules.scanFull rules.confirm_commands cmd with
        | some d =>
          obtain ⟨r, hmem, _, hdet⟩ := scanFull_some_exists _ _ _ h2
          obtain ⟨h1r, h2r⟩ := hcf r hmem
          subst hdet
          simp [CmdRule.details, h1r, h2r]
        | none =>
          cases h3 : CheckAgentRules.scanFull rules.allow_commands cmd with
          | some d =>
            obtain ⟨r, hmem, _, hdet⟩ := scanFull_some_exists _ _ _ h3
            obtain ⟨h1r, h2r⟩ := hal r hmem
            subst hdet
            simp [CmdRule.details, h1r, h2r]
          | none => simp
  · intro f dl base cwd h
    by_cases hf : f = ""
    · simp [CheckAgentRules.check_path, hf]
    · simp only [CheckAgentRules.check_path, if_neg hf]
      exact checkPathLoop_details_none _ _ _ _ h

/-- Witness for C7 at end-to-end scenario 3 of the spec: entry
`secrets/` without reason or context forbids `/repo/secrets/keys.pem`
with details that omit both optional fields. -/
theorem matching_anomalies_locally_handled_witness :
    (CheckAgentRules.check_path "/repo/secrets/keys.pem" [{ path := "secrets/" }]
      (pathOfString "/repo") (pathOfString "/tmp")).2 = ⟨none, none⟩ :=
  matching_anomalies_locally_handled.2.2.2 "/repo/secrets/keys.pem"
    [{ path := "secrets/" }] (pathOfString "/repo") (pathOfString "/tmp") (by decide)

/-- C5: `process_editing_tool` collects the `path` argument and the
`paths` list in that order, checks each collected path against the
`deny_edits` list, emits exactly one `deny` decision for the first
forbidden path (with that check's details) and stops there, and emits
nothing when no collected path is forbidden. -/
theorem process_editing_tool_first_forbidden (args : CheckAgentRules.EditArgs)
    (rules : Rules) (rules_dir cwd : PPath) (fmt : ToolFormat) :
    (∀ (pre post : List String) (p : String),
      CheckAgentRules.collectPaths args = pre ++ p :: post →
      (∀ q ∈ pre, (CheckAgentRules.check_path q rules.deny_edits rules_dir cwd).1 = false) →
      (CheckAgentRules.check_path p rules.deny_edits rules_dir cwd).1 = true →
      CheckAgentRules.process_editing_tool args rules rules_dir cwd fmt
        = (true, [CheckAgentRules.output_decision "deny" fmt
            (CheckAgentRules.check_path p rules.deny_edits rules_dir cwd).2.reason
            (CheckAgentRules.check_path p rules.deny_edits rules_dir cwd).2.context]))
  ∧ ((∀ p ∈ CheckAgentRules.collectPaths args,
        (CheckAgentRules.check_path p rules.deny_edits rules_dir cwd).1 = false) →
      CheckAgentRules.process_editing_tool args rules rules_dir cwd fmt = (false, [])) := by
  constructor
  · intro pre post p hsplit hpre hp
    simp only [CheckAgentRules.process_editing_tool, hsplit]
    exact editLoop_append pre post p _ _ _ _ hpre hp
  · intro h
    simp only [CheckAgentRules.process_editing_tool]
    exact editLoop_none _ _ _ _ _ h

/-- Witness for C5: a batch with the single target
`/repo/secrets/keys.pem` under deny entry `secrets/` yields exactly one
`deny` decision carrying the entry's reason. -/
theorem process_editing_tool_first_forbidden_witness :
    CheckAgentRules.process_editing_tool
      { path := some "/repo/secrets/keys.pem" }
      { deny_edits := [{ path := "secrets/", reason := some "No edits" }] }
      (pathOfString "/repo") (pathOfString "/tmp") ToolFormat.copilotCli
    = (true, [JVal.obj [("permissionDecision", JVal.str "deny"),
        ("permissionDecisionReason", JVal.str "No edits")]]) :=
  (process_editing_tool_first_forbidden
    { path := some "/repo/secrets/keys.pem" }
    { deny_edits := [{ path := "secrets/", reason := some "No edits" }] }
    (pathOfString "/repo") (pathOfString "/tmp") ToolFormat.copilotCli).1
    [] [] "/repo/secrets/keys.pem" rfl (by simp) (by decide)

/-- C10: the legacy matcher `tool_check.check_forbidden_path` performs
no resolution: a nonempty candidate is forbidden exactly when some deny
entry has the same final component as the candidate and is either a
single component or a string suffix of the candidate; the first such
entry supplies the details; consequently a file inside a denied
directory whose filename differs from the entry's final component is
never reported forbidden. -/
theorem check_forbidden_path_characterization (f : String) (dl : List PathRule)
    (hf : f ≠ "") :
    ((ToolCheck.check_forbidden_path f dl).1 = true ↔
      ∃ r ∈ dl, legacyHit (pathOfString f) r = true)
  ∧ (∀ (pre post : List PathRule) (r : PathRule), dl = pre ++ r :: post →
      (∀ q ∈ pre, legacyHit (pathOfString f) q = false) →
      legacyHit (pathOfString f) r = true →
      ToolCheck.check_forbidden_path f dl = (true, r.details))
  ∧ ((∀ r ∈ dl, pathName (pathOfString f) ≠ pathName (pathOfString r.path)) →
      (ToolCheck.check_forbidden_path f dl).1 = false) := by
  refine ⟨?_, ?_, ?_⟩
  · simp only [ToolCheck.check_forbidden_path, if_neg hf]
    exact forbiddenLoop_true_iff _ _
  · intro pre post r hsplit hpre hr
    simp only [ToolCheck.check_forbidden_path, if_neg hf, hsplit]
    exact forbiddenLoop_append _ _ _ _ hpre hr
  · intro hnames
    simp only [ToolCheck.check_forbidden_path, if_neg hf]
    have hno : ¬ ∃ r ∈ dl, legacyHit (pathOfString f) r = true := by
      rintro ⟨r, hmem, hhit⟩
      simp [legacyHit] at hhit
      exact hnames r hmem hhit.1
    by_cases hb : (ToolCheck.forbiddenLoop (pathOfString f) dl).1 = true
    · exact absurd ((forbiddenLoop_true_iff _ _).mp hb) hno
    · simpa using hb

/-- Witness for C10: the file `/repo/secrets/keys.pem` sits inside the
denied directory `secrets/` but its filename differs from the entry's
final component, so the legacy matcher does not report it forbidden. -/
theorem check_forbidden_path_characterization_witness :
    (ToolCheck.check_forbidden_path "/repo/secrets/keys.pem"
      [{ path := "secrets/" }]).1 = false :=
  (check_forbidden_path_characterization "/repo/secrets/keys.pem"
    [{ path := "secrets/" }] (by decide)).2.2 (by decide)

/-- C8: in the copilot-cli output shape, `output_decision` produces a
flat JSON object: the decision is a top-level field, the reason field is
present exactly when a (truthy) reason was supplied, no context field is
ever emitted, nothing is nested under `hookSpecificOutput`, and every
field value is a plain string. -/
theorem output_decision_cli_shape (decision : String) (reason context : Option String) :
    (("permissionDecision", JVal.str decision)
      ∈ cliFields (CheckAgentRules.output_decision decision ToolFormat.copilotCli reason context))
  ∧ (truthy reason = true →
      ("permissionDecisionReason", JVal.str (reason.getD ""))
        ∈ cliFields (CheckAgentRules.output_decision decision ToolFormat.copilotCli reason context))
  ∧ (truthy reason = false →
      ∀ v : JVal, ("permissionDecisionReason", v)
        ∉ cliFields (CheckAgentRules.output_decision decision ToolFormat.copilotCli reason context))
  ∧ (∀ v : JVal, ("additionalContext", v)
      ∉ cliFields (CheckAgentRules.output_decision decision ToolFormat.copilotCli reason context))
  ∧ (∀ v : JVal, ("hookSpecificOutput", v)
      ∉ cliFields (CheckAgentRules.output_decision decision ToolFormat.copilotCli reason context))
  ∧ (∀ (k : String) (v : JVal),
      (k, v) ∈ cliFields (CheckAgentRules.output_decision decision ToolFormat.copilotCli reason context) →
      ∃ s, v = JVal.str s) := by
  refine ⟨?_, ?_, ?_, ?_, ?_, ?_⟩
  · by_cases hr : truthy reason = true <;>
      simp [CheckAgentRules.output_decision, cliFields, hr]
  · intro hr
    simp [CheckAgentRules.output_decision, cliFields, hr]
  · intro hr v
    simp [CheckAgentRules.output_decision, cliFields, hr]
  · intro v
    by_cases hr : truthy reason = true <;>
      simp [CheckAgentRules.output_decision, cliFields, hr]
  · intro v
    by_cases hr : truthy reason = true <;>
      simp [CheckAgentRules.output_decision, cliFields, hr]
  · intro k v hv
    by_cases hr : truthy reason = true
    · simp [CheckAgentRules.output_decision, cliFields, hr] at hv
      rcases hv with ⟨_, hv2⟩ | ⟨_, hv2⟩ <;> exact ⟨_, hv2⟩
    · simp [CheckAgentRules.output_decision, cliFields, hr] at hv
      exact ⟨_, hv.2⟩

/-- Witness for C8: with decision `deny` and reason `Not allowed` the
flat output carries the reason as a top-level field. -/
theorem output_decision_cli_shape_witness :
    ("permissionDecisionReason", JVal.str "Not allowed")
      ∈ cliFields (CheckAgentRules.output_decision "deny" ToolFormat.copilotCli
          (some "Not allowed") (some "ctx")) :=
  (output_decision_cli_shape "deny" (some "Not allowed") (some "ctx")).2.1 (by decide)
